/-
  Verification development for the EC2S entity-component-system runtime.

  The definitions below are a shallow embedding of the C++ sources:
    - Entity.hpp        : 64-bit packed (generation | index) entity handles
    - ISparseSet.hpp    : type-erased sparse-set operations (remove/contains/...)
    - SparseSet.hpp     : typed pool operations (emplace/swap/sort/each/...)
    - Registry.hpp      : entity lifecycle (create/destroy) and pool map surface
    - Group.hpp         : eagerly maintained intersection prefix
    - View.hpp          : multi-pool join iteration
    - ArenaAllocator.hpp: bump allocator with chained blocks (latest draft)
    - TLSFAllocator.hpp : two-level segregated-fit allocator
    - JobSystem.hpp     : thread pool with dependency-counted job DAGs

  Machine integers are modelled as Nat with explicit reductions modulo 2^32 / 2^64
  where the C++ unsigned arithmetic can wrap.  Fallible reads (pointer dereference,
  vector indexing) are modelled with Option or with List.getD defaults; every place
  where a default stands in for an out-of-bounds C++ read is marked by a comment.
-/
import Mathlib

namespace EC2S

/-! ### Entity.hpp

    `using Entity = std::uint64_t;`
    `kEntitySlotShiftWidth = sizeof(Entity) * 4 = 32`
    `kEntitySlotMask  = max << 32`, `kEntityIndexMask = ~kEntitySlotMask`.
    An entity value `e` decomposes as `slot (generation) = e >> 32` and
    `index = e & 0xFFFFFFFF`; we use `e / 2^32` and `e % 2^32`. -/

def kEntitySlotShiftWidth : Nat := 32

/-- index part of an entity: `entity & kEntityIndexMask`. -/
def entityIndex (e : Nat) : Nat := e % 2 ^ 32

/-- generation (slot) part of an entity, as a small number:
    `(entity & kEntitySlotMask) >> 32`.  Two entity values below 2^64 have equal
    `entity & kEntitySlotMask` iff they have equal `entitySlot`. -/
def entitySlot (e : Nat) : Nat := e / 2 ^ 32

/-- rebuild an entity value from generation and index (index below 2^32). -/
def mkEntity (gen idx : Nat) : Nat := gen * 2 ^ 32 + idx

/-- `ISparseSet::kTombstone = std::numeric_limits<Entity>::max()`. -/
def kTombstone : Nat := 2 ^ 64 - 1

/-- swap two list positions; identity when either position is out of range
    (the source would be reading out of bounds there). -/
def listSwap (l : List α) (i j : Nat) : List α :=
  match l.get? i, l.get? j with
  | some a, some b => (l.set i b).set j a
  | _, _ => l

/-! ### SparseSet (typed pool)

    `mSparseIndices : vector<size_t>` / `mDenseEntities : vector<Entity>` /
    `mPacked : vector<T>`. -/

structure Pool (α : Type) where
  sparse : List Nat
  dense : List Nat
  packed : List α
deriving Repr, DecidableEq

namespace Pool

def empty : Pool α := ⟨[], [], []⟩

/-- `ISparseSet::resizeSparseIndex`: `mSparseIndices.resize(maxIndex, kTombstone)`.
    (Only ever called to grow.) -/
def resizeSparseIndex (p : Pool α) (maxIndex : Nat) : Pool α :=
  { p with sparse := p.sparse ++ List.replicate (maxIndex - p.sparse.length) kTombstone }

/-- `SparseSet::emplace`: grow sparse if needed, then
    `mSparseIndices[index] = mPacked.size(); mDenseEntities.emplace_back(entity);
     mPacked.emplace_back(args...)`. -/
def emplace (p : Pool α) (e : Nat) (v : α) : Pool α :=
  let idx := entityIndex e
  let p' := if p.sparse.length ≤ idx then p.resizeSparseIndex (idx + 1) else p
  { sparse := p'.sparse.set idx p'.packed.length
    dense := p'.dense ++ [e]
    packed := p'.packed ++ [v] }

/-- `ISparseSet::contains`: false when the index is out of range; otherwise the
    sparse entry must not be the tombstone and the dense entity at that position
    must have the same generation slot.  The source reads
    `mDenseEntities[sparseIndex]` without a bounds check; a stale in-range sparse
    entry would read garbage there, modelled by the `getD` default 0. -/
def containsE (p : Pool α) (e : Nat) : Bool :=
  let idx := entityIndex e
  if idx < p.sparse.length then
    let si := p.sparse.getD idx 0
    decide (si ≠ kTombstone) && decide (entitySlot (p.dense.getD si 0) = entitySlot e)
  else false

/-- `ISparseSet::remove`: swap-remove from dense, redirect the moved entity's sparse
    entry, pop, remove the packed element the same way (`removePackedElement`),
    tombstone the removed index. -/
def removeE (p : Pool α) (e : Nat) : Pool α :=
  let idx := entityIndex e
  if idx < p.sparse.length then
    let si := p.sparse.getD idx 0
    if si = kTombstone ∨ entitySlot (p.dense.getD si 0) ≠ entitySlot e then p
    else
      -- std::swap(mDenseEntities[sparseIndex], mDenseEntities.back()); then
      -- mSparseIndices[index(mDenseEntities[sparseIndex])] = sparseIndex; pop_back.
      let lastDense := p.dense.getD (p.dense.length - 1) 0
      let dense' := (p.dense.set si lastDense).take (p.dense.length - 1)
      let sparse' := p.sparse.set (entityIndex lastDense) si
      -- removePackedElement: std::swap(mPacked[sparseIndex], mPacked.back()); pop_back.
      let packed' :=
        match p.packed.get? (p.packed.length - 1) with
        | some lastPacked => (p.packed.set si lastPacked).take (p.packed.length - 1)
        | none => p.packed
      { sparse := sparse'.set idx kTombstone, dense := dense', packed := packed' }
  else p

/-- `ISparseSet::size`. -/
def sizeE (p : Pool α) : Nat := p.dense.length

/-- `SparseSet::getSparseIndexIfValid`: succeeds iff the index is in range and the
    sparse entry is below `mPacked.size()`.  Note: no generation check. -/
def getSparseIndexIfValid (p : Pool α) (e : Nat) : Option Nat :=
  let idx := entityIndex e
  if idx < p.sparse.length then
    let si := p.sparse.getD idx 0
    if si < p.packed.length then some si else none
  else none

/-- `SparseSet::operator[] / get`: `mPacked[mSparseIndices[index(entity)]]`.
    Out-of-range reads (asserted in the source's debug mode) yield the defaults. -/
def getComp [Inhabited α] (p : Pool α) (e : Nat) : α :=
  p.packed.getD (p.sparse.getD (entityIndex e) 0) default

/-- `SparseSet::swap` (SparseSet.hpp lines 191-205): after swapping the packed and
    dense entries it assigns `mSparseIndices[leftIndex] = mSparseIndices[rightIndex]`
    and never updates `mSparseIndices[rightIndex]`.  Translated exactly as written. -/
def swapSS (p : Pool α) (left right : Nat) : Pool α :=
  let leftIndex := entityIndex left
  let rightIndex := entityIndex right
  if left = right then p
  else
    let a := p.sparse.getD leftIndex 0
    let b := p.sparse.getD rightIndex 0
    { packed := listSwap p.packed a b
      dense := listSwap p.dense a b
      sparse := p.sparse.set leftIndex b }

/-- `ISparseSet::swap` (ISparseSet.hpp lines 98-118): the symmetric variant that
    checks tombstones/generations and updates both sparse entries. -/
def swapI (p : Pool α) (left right : Nat) : Pool α :=
  let leftIndex := entityIndex left
  let rightIndex := entityIndex right
  if leftIndex < p.sparse.length ∧ rightIndex < p.sparse.length then
    let a := p.sparse.getD leftIndex 0
    let b := p.sparse.getD rightIndex 0
    if a = kTombstone ∨ b = kTombstone ∨ entitySlot (p.dense.getD a 0) ≠ entitySlot left ∨
        entitySlot (p.dense.getD b 0) ≠ entitySlot right then p
    else
      { dense := listSwap p.dense a b
        packed := listSwap p.packed a b
        sparse := (p.sparse.set leftIndex b).set rightIndex a }
  else p

/-- `SparseSet::each` with an entity-taking callable visits
    `(mDenseEntities[i], mPacked[i])` for `i` in dense order; we record the
    visited pairs. -/
def eachVisits (p : Pool α) : List (Nat × α) := p.dense.zip p.packed

/-! `SparseSet::sort` (SparseSet.hpp lines 207-227):

    ```
    std::sort(mPacked.begin(), mPacked.end(), std::move(predicate));
    for (pos = 0, end = mDenseEntities.size(); pos < end; ++pos) {
      curr = pos;
      next = mSparseIndices[index(mDenseEntities[curr])];
      while (curr != next) {
        adjust(mDenseEntities[curr], mDenseEntities[next]);
        mSparseIndices[index(mDenseEntities[curr])] = curr;
        curr = next;
        next = mSparseIndices[index(mDenseEntities[curr])];
      }
    }
    ```
    `std::sort` (an unspecified comparison sort) is modelled by insertion sort over
    the packed vector; the fix-up loop is translated verbatim, with fuel bounding
    the while loop (on the states the source produces the guard is settled well
    within `dense.length + 1` iterations, and the theorems below show the loop in
    fact never runs at all on a well-formed pool). -/

def insertSorted (le : α → α → Bool) (v : α) : List α → List α
  | [] => [v]
  | x :: xs => if le v x then v :: x :: xs else x :: insertSorted le v xs

def insertionSort (le : α → α → Bool) : List α → List α
  | [] => []
  | x :: xs => insertSorted le x (insertionSort le xs)

/-- `SparseSet::adjust`: swap the dense entries the two entities' sparse slots
    point at. -/
def adjust (p : Pool α) (lhs rhs : Nat) : Pool α :=
  { p with dense := listSwap p.dense (p.sparse.getD (entityIndex lhs) 0)
                      (p.sparse.getD (entityIndex rhs) 0) }

def sortFixWhile (p : Pool α) (curr : Nat) : Nat → Pool α
  | 0 => p
  | fuel + 1 =>
    let next := p.sparse.getD (entityIndex (p.dense.getD curr 0)) 0
    if curr = next then p
    else
      let p' := adjust p (p.dense.getD curr 0) (p.dense.getD next 0)
      let p'' := { p' with
        sparse := p'.sparse.set (entityIndex (p'.dense.getD curr 0)) curr }
      sortFixWhile p'' next fuel

def sortFix (p : Pool α) : Pool α :=
  (List.range p.dense.length).foldl (fun q pos => sortFixWhile q pos (q.dense.length + 1)) p

def sortSS (le : α → α → Bool) (p : Pool α) : Pool α :=
  sortFix { p with packed := insertionSort le p.packed }

/-! Pool well-formedness: the documented sparse-set invariant (spec section 3):
    for each `i < length`, `sparse[index(dense[i])] = i`, and every non-tombstone
    sparse entry points back at a dense entity with that index. -/

def WF (p : Pool α) : Prop :=
  p.dense.length = p.packed.length ∧
  (∀ i, i < p.dense.length →
    entityIndex (p.dense.getD i 0) < p.sparse.length ∧
    p.sparse.getD (entityIndex (p.dense.getD i 0)) 0 = i) ∧
  (∀ j, j < p.sparse.length → p.sparse.getD j 0 ≠ kTombstone →
    p.sparse.getD j 0 < p.dense.length ∧
    entityIndex (p.dense.getD (p.sparse.getD j 0) 0) = j)

instance (p : Pool Nat) : Decidable (WF p) := by
  unfold WF; infer_instance

end Pool

/-! ### Registry.hpp (second, current draft in the file)

    State: `mNextEntity : Entity`, `mFreedEntities : std::queue<Entity>` (front =
    list head), and the pool map `mComponentArrayMap` keyed by type hash.  The
    pool map is modelled as an association list from type hash to pool; all pools
    are given the same component type, which is irrelevant to the claims below
    (operations only ever inspect the pool stored under the requested hash). -/

/-- Modelled from the spec: `spinEntitySlot` is used by `Registry::create`
    (Registry.hpp line 331) but its definition is not among the given sources.
    Spec section 4.1: on reuse the freed handle's generation field is bumped by
    one, index unchanged; the arithmetic is that of a 64-bit value whose high
    32 bits hold the generation. -/
def spinEntitySlot (e : Nat) : Nat :=
  ((entitySlot e + 1) % 2 ^ 32) * 2 ^ 32 + entityIndex e

structure Reg (α : Type) where
  nextEntity : Nat
  freed : List Nat
  pools : List (Nat × Pool α)
deriving Repr, DecidableEq

namespace Reg

def emptyReg : Reg α := ⟨0, [], []⟩

/-- association-list lookup standing for `mComponentArrayMap.find(hash)`. -/
def findPool (r : Reg α) (h : Nat) : Option (Pool α) :=
  (r.pools.find? (fun q => q.1 = h)).map (·.2)

/-- update the pool stored under hash `h` (which must be present). -/
def setPool (r : Reg α) (h : Nat) (p : Pool α) : Reg α :=
  { r with pools := r.pools.map (fun q => if q.1 = h then (h, p) else q) }

/-- `Registry::create` (no component arguments): pop the freed queue's front and
    bump its generation via `spinEntitySlot`, or mint `mNextEntity++`
    (a `uint64_t` post-increment, hence the reduction modulo 2^64). -/
def create (r : Reg α) : Nat × Reg α :=
  match r.freed with
  | [] => (r.nextEntity, { r with nextEntity := (r.nextEntity + 1) % 2 ^ 64 })
  | e :: rest => (spinEntitySlot e, { r with freed := rest })

/-- `Registry::destroy`: pool-level remove on every pool, then push the handle
    (unchanged) onto the freed queue.  No liveness check is performed. -/
def destroy (r : Reg α) (e : Nat) : Reg α :=
  { r with pools := r.pools.map (fun q => (q.1, q.2.removeE e))
           freed := r.freed ++ [e] }

/-- `Registry::size<T>`: 0 when no pool exists for the hash. -/
def sizeR (r : Reg α) (h : Nat) : Nat :=
  match r.findPool h with
  | none => 0
  | some p => p.sizeE

/-- `Registry::contains<T>`: map containment short-circuits to false. -/
def containsR (r : Reg α) (h : Nat) (e : Nat) : Bool :=
  match r.findPool h with
  | none => false
  | some p => p.containsE e

/-- `Registry::remove<T>` with no group watching `T`: early return leaves the
    registry untouched when the pool is missing. -/
def removeR (r : Reg α) (h : Nat) (e : Nat) : Reg α :=
  match r.findPool h with
  | none => r
  | some p => r.setPool h (p.removeE e)

/-- `Registry::each<T>` (entity-taking overload): the pairs the callable would be
    invoked on, in dense order; the early return on a missing pool invokes
    nothing. -/
def eachVisitsR (r : Reg α) (h : Nat) : List (Nat × α) :=
  match r.findPool h with
  | none => []
  | some p => p.eachVisits

/-- `Registry::add<T>` with no group watching `T`: lazily create the pool, then
    `emplace`. -/
def addR (r : Reg α) (h : Nat) (e : Nat) (v : α) : Reg α :=
  match r.findPool h with
  | none => { r with pools := r.pools ++ [(h, Pool.empty.emplace e v)] }
  | some p => r.setPool h (p.emplace e v)

end Reg

/-! ### Group.hpp over a pair of pools

    `Group<std::tuple<SparseSet<A>*, SparseSet<B>*>>`.  The tuple elements are
    `SparseSet<T>*`, so `pSparseSet->swap(...)` resolves to `SparseSet::swap`
    (the `swapSS` above), and `args->contains(...)` to `ISparseSet::contains`.
    We instantiate the component tuple at two pools, as in the failing scenario. -/

namespace Group2

/-- `iterateTupleAndSwap`: for each pool in order,
    `pSparseSet->swap(target, pSparseSet->getDenseEntities()[groupSize])`. -/
def pairSwap (ps : Pool α × Pool β) (target gsize : Nat) : Pool α × Pool β :=
  (ps.1.swapSS target (ps.1.dense.getD gsize 0),
   ps.2.swapSS target (ps.2.dense.getD gsize 0))

/-- the body shared by the constructor loop and `checkAddedImpl`: if the entity is
    contained in every pool, swap it to position `groupSize` in each pool and
    increment `groupSize`. -/
def checkAdded (ps : Pool α × Pool β) (gsize : Nat) (e : Nat) : (Pool α × Pool β) × Nat :=
  if ps.1.containsE e && ps.2.containsE e then (pairSwap ps e gsize, gsize + 1)
  else (ps, gsize)

/-- `Group::checkRemovedImpl`: if the entity is contained in every pool, swap it
    with position `groupSize - 1` and decrement. -/
def checkRemoved (ps : Pool α × Pool β) (gsize : Nat) (e : Nat) : (Pool α × Pool β) × Nat :=
  if ps.1.containsE e && ps.2.containsE e then (pairSwap ps e (gsize - 1), gsize - 1)
  else (ps, gsize)

/-- `iterateTupleAndSearchMinSizeSparseSet` over a pair: the second pool wins only
    when strictly smaller (`pMinSparseSet->size() > std::get<N>(t)->size()`). -/
def minPoolIsSecond (ps : Pool α × Pool β) : Bool :=
  ps.2.dense.length < ps.1.dense.length

/-- the group constructor's loop body at dense position `k`: the iterated vector
    is a live reference into the minimum-size pool, so the entity is read from the
    current state. -/
def ctorStep (minSecond : Bool) (st : (Pool α × Pool β) × Nat) (k : Nat) :
    (Pool α × Pool β) × Nat :=
  let e := if minSecond then st.1.2.dense.getD k 0 else st.1.1.dense.getD k 0
  checkAdded st.1 st.2 e

/-- `Group::Group`: iterate the minimum pool's dense entities (whose length the
    loop never changes) and admit each entity contained in all pools. -/
def construct (ps : Pool α × Pool β) : (Pool α × Pool β) × Nat :=
  let minSecond := minPoolIsSecond ps
  let len := if minSecond then ps.2.dense.length else ps.1.dense.length
  (List.range len).foldl (ctorStep minSecond) (ps, 0)

end Group2

/-! ### View.hpp

    The draft shipped with the current registry takes inclusion and exclusion
    tuples (`View<decltype(include), decltype(exclude)>`); its class body is
    absent from the given sources, but its per-entity test over the inclusion
    pools is the `invokeIfValidEntity` / `getSparseIndexIfValid` combination of
    View.hpp lines 258-279, and spec section 4.4 fixes the exclusion test
    ("if any exclusion pool contains it, skip") and the pivot choice (inclusion
    pool of smallest size, first among ties, per `searchMinSizeSparseSet`). -/

namespace View

/-- `searchMinSizeSparseSet`: position of the first inclusion pool of strictly
    minimal size (ties keep the earlier pool, since `nowMin <= size` keeps the
    current candidate). -/
def pivotIdx (incl : List (Pool α)) : Nat :=
  (incl.enum.foldl
    (fun best q => if best.1 ≤ q.2.sizeE then best else (q.2.sizeE, q.1))
    ((incl.headD Pool.empty).sizeE, 0)).2

/-- Modelled from the spec: the view's `each` assembled from source parts.  The
    pivot's dense entities are iterated in order; an entity is visited iff
    `getSparseIndexIfValid` succeeds on every inclusion pool (View.hpp
    lines 258-279, a generation-blind test) and, per spec section 4.4, no
    exclusion pool `contains` it (`ISparseSet::contains`). -/
def visited (incl excl : List (Pool α)) : List Nat :=
  (incl.getD (pivotIdx incl) Pool.empty).dense.filter (fun e =>
    incl.all (fun p => (p.getSparseIndexIfValid e).isSome) &&
    excl.all (fun p => !(p.containsE e)))

end View

/-! ### ArenaAllocator.hpp (latest draft: `kBlockSize` template, `reset`,
    `ArenaMemoryResource`)

    `MemoryBlock { pArena, pCurrentPtr, size, pNext }`, `mpHead` heads the chain.
    Each `new std::byte[...]` backing buffer is modelled by a fresh abstract id;
    a pointer is the pair (buffer id, offset).  Internal-memory mode with
    allocation always succeeding (`std::nothrow` failure is out of scope). -/

namespace Arena

structure MemBlock where
  id : Nat
  size : Nat
  cur : Nat
deriving Repr, DecidableEq

structure ArenaState where
  blocks : List MemBlock
  nextId : Nat
deriving Repr, DecidableEq

/-- `ArenaAllocator::ArenaAllocator(byteSize)`: `reallocate(byteSize)` on an empty
    chain gives one block with the cursor at its start. -/
def init (byteSize : Nat) : ArenaState := ⟨[⟨0, byteSize, 0⟩], 1⟩

/-- `ArenaAllocator::reallocate(newBlockSize)`: chain a fresh block in front. -/
def reallocate (s : ArenaState) (newBlockSize : Nat) : ArenaState :=
  ⟨⟨s.nextId, newBlockSize, 0⟩ :: s.blocks, s.nextId + 1⟩

/-- `ArenaAllocator::allocate(numBytes)`: bump in the head block, chaining a block
    of `max(kBlockSize, numBytes)` first when the head has no room. -/
def allocate (kBlockSize : Nat) (s : ArenaState) (numBytes : Nat) :
    Option (Nat × Nat) × ArenaState :=
  match s.blocks with
  | [] => (none, s)  -- mpHead is never null after construction
  | b :: rest =>
    if b.size < b.cur + numBytes then
      let s' := reallocate ⟨b :: rest, s.nextId⟩ (max kBlockSize numBytes)
      match s'.blocks with
      | [] => (none, s')
      | nb :: rest' => (some (nb.id, nb.cur), ⟨{ nb with cur := nb.cur + numBytes } :: rest', s'.nextId⟩)
    else (some (b.id, b.cur), ⟨{ b with cur := b.cur + numBytes } :: rest, s.nextId⟩)

/-- `ArenaAllocator::reset` (latest draft, lines 497-505): rewind every block's
    cursor, leaving the chain -- and in particular `mpHead` -- unchanged. -/
def reset (s : ArenaState) : ArenaState :=
  ⟨s.blocks.map (fun b => { b with cur := 0 }), s.nextId⟩

end Arena

/-! ### TLSFAllocator.hpp, instantiated over a byte buffer

    The arena is a flat byte range `[0, mAllSize)`; a boundary block starting at
    offset `o` consists of a 32-byte header (`sizeof(BoundaryBlock<TLSFBlockHeader>)`
    on LP64: uint32 size + padding + two pointers + bool), `size` payload bytes,
    and a 4-byte end tag holding the full block size.  Block headers and end tags
    are the only memory the allocator reads, so the byte buffer is modelled by two
    maps: offset -> header record and offset -> end-tag value.  A map miss
    corresponds to reading bytes that no live header/tag occupies (garbage in the
    source); each such read is modelled as a failed neighbour/lookup test and
    marked below. -/

namespace TLSF

def hdrSize : Nat := 32
def endTagSize : Nat := 4

structure Block where
  size : Nat
  used : Bool
  pre : Option Nat
  next : Option Nat
deriving Repr, DecidableEq

/-- full block footprint: `sizeof(BoundaryBlock) + header.getSize() + sizeof(EndTag)`. -/
def blockSize (b : Block) : Nat := hdrSize + b.size + endTagSize

structure TLSFState where
  blocks : List (Nat × Block)
  tags : List (Nat × Nat)
  blockArray : List (Nat × Option Nat)
  allFLI : Nat
  maxSize : Nat
  allSize : Nat
deriving Repr, DecidableEq

/-- association-list read. -/
def alGet (l : List (Nat × X)) (k : Nat) : Option X :=
  (l.find? (fun q => q.1 = k)).map (·.2)

/-- association-list write (overwrite or insert). -/
def alSet (l : List (Nat × X)) (k : Nat) (v : X) : List (Nat × X) :=
  if (l.find? (fun q => q.1 = k)).isSome then
    l.map (fun q => if q.1 = k then (k, v) else q)
  else (k, v) :: l

def getBlock (s : TLSFState) (off : Nat) : Option Block := alGet s.blocks off

def setBlock (s : TLSFState) (off : Nat) (b : Block) : TLSFState :=
  { s with blocks := alSet s.blocks off b }

def modifyBlock (s : TLSFState) (off : Nat) (f : Block → Block) : TLSFState :=
  match getBlock s off with
  | some b => setBlock s off (f b)
  | none => s  -- the source would be writing through a dangling header pointer

/-- `BoundaryBlock::writeEndTag`: the full block size, placed in the last 4 bytes
    of the block. -/
def writeEndTag (s : TLSFState) (off : Nat) : TLSFState :=
  match getBlock s off with
  | some b => { s with tags := alSet s.tags (off + blockSize b - endTagSize) (blockSize b) }
  | none => s

/-- `getMSB`: the source shifts until the value reaches 1, counting shifts
    (floor log2); 0 is mapped to 0 before the loop.  Fuel 64 covers every value
    in range. -/
def getMSBAux : Nat → Nat → Nat
  | 0, _ => 0
  | fuel + 1, d => if d ≤ 1 then 0 else getMSBAux fuel (d / 2) + 1

def getMSB (d : Nat) : Nat := if d = 0 then 0 else getMSBAux 64 d

/-- `getLSB`: shift while even, counting shifts (only called on nonzero values). -/
def getLSBAux : Nat → Nat → Nat
  | 0, _ => 0
  | fuel + 1, d => if d % 2 = 0 then getLSBAux fuel (d / 2) + 1 else 0

def getLSB (d : Nat) : Nat := getLSBAux 64 d

/-- `getSecondLevel(size, MSB, N) = (size & ((1 << MSB) - 1)) >> (MSB - N)`. -/
def getSecondLevel (size msb n : Nat) : Nat :=
  (size &&& ((1 <<< msb) - 1)) >>> (msb - n)

/-- `getFreeListSLI`: the uint32 sentinel `-1` is modelled as `none`. -/
def getFreeListSLI (mySLI freeListBit : Nat) : Option Nat :=
  let myBit := (0xffffffff <<< mySLI) &&& 0xffffffff
  let enable := freeListBit &&& myBit
  if enable = 0 then none else some (getLSB enable)

/-- `getFreeListFLI`: likewise. -/
def getFreeListFLI (myFLI globalFLI : Nat) : Option Nat :=
  let myBit := (0xffffffff <<< myFLI) &&& 0xffffffff
  let enable := globalFLI &&& myBit
  if enable = 0 then none else some (getMSB enable)

/-- `getBlockArrayIndex(FLI, SLI) = (FLI - kSplitNum) * (1 << kSplitNum) + SLI`
    (`FLI >= kSplitNum` in every reachable call, since sizes are at least
    `1 << kSplitNum`). -/
def baIdx (n fli sli : Nat) : Nat := (fli - n) * (1 <<< n) + sli

def baGet (s : TLSFState) (i : Nat) : Option Nat := (alGet s.blockArray i).join

def baSet (s : TLSFState) (i : Nat) (v : Option Nat) : TLSFState :=
  { s with blockArray := alSet s.blockArray i v }

/-- `registerFLI`. -/
def registerFLI (s : TLSFState) (memSize : Nat) : TLSFState :=
  { s with allFLI := s.allFLI ||| (1 <<< getMSB memSize) }

/-- `unregisterFLI`: `mAllFLI &= ~(1 << getMSB(memorySize))` in 32 bits. -/
def unregisterFLI (s : TLSFState) (memSize : Nat) : TLSFState :=
  { s with allFLI := s.allFLI &&& (0xffffffff ^^^ (1 <<< getMSB memSize)) }

/-- the SLi/FLi key of a block, used whenever the source recomputes
    `getMSB(pBlock->getMemorySize())` and `getSecondLevel(...)`. -/
def sizeIdx (n memSize : Nat) : Nat :=
  baIdx n (getMSB memSize) (getSecondLevel memSize (getMSB memSize) n)

/-- `removeBlockFromList(pBlock, pRight = nullptr)`. -/
def removeBlockFromList (n : Nat) (s : TLSFState) (off : Nat) (pRight : Option Nat) :
    TLSFState :=
  match getBlock s off with
  | none => s  -- dangling header pointer; unreachable for the traced states
  | some b =>
    if b.next = none ∧ b.pre = none then
      baSet (unregisterFLI s b.size) (sizeIdx n b.size) none
    else match b.pre with
      | some p =>
        let s := modifyBlock s p (fun pb => { pb with next := b.next })
        match b.next with
        | some nx => modifyBlock s nx (fun nb => { nb with pre := b.pre })
        | none => s
      | none =>
        match b.next with
        | some nx =>
          let s := modifyBlock s nx (fun nb => { nb with pre := none })
          match pRight with
          | some r => baSet s (sizeIdx n b.size) ((getBlock s r).bind (·.next))
          | none => baSet s (sizeIdx n b.size) b.next
        | none => s  -- assert(!"invalid")

/-- `BoundaryBlock::split(size)`: shrink in place, then placement-new the tail
    block (default header: free, unlinked) and write both end tags. -/
def split (s : TLSFState) (off size : Nat) : TLSFState × Option Nat :=
  match getBlock s off with
  | none => (s, none)
  | some b =>
    let needSize := size + endTagSize + hdrSize
    if b.size < needSize then (s, none)
    else
      let newBlockMemSize := b.size - needSize
      let s := writeEndTag (setBlock s off { b with size := size }) off
      let newOff := off + hdrSize + size + endTagSize
      let s := writeEndTag
        (setBlock s newOff { size := newBlockMemSize, used := false, pre := none, next := none })
        newOff
      (s, some newOff)

/-- `BoundaryBlock::merge()`: absorb the block to the right (its header size is
    read through `next()`; a dangling read yields the 0 default). -/
def merge (s : TLSFState) (off : Nat) : TLSFState :=
  match getBlock s off with
  | none => s
  | some b =>
    let nextSize := ((getBlock s (off + blockSize b)).map (·.size)).getD 0
    writeEndTag (setBlock s off { b with size := b.size + endTagSize + hdrSize + nextSize }) off

/-- the free-list walk `for (; header->next && header->used; ) header = header->next`. -/
def walkFree (s : TLSFState) : Nat → Nat → Nat
  | 0, off => off
  | fuel + 1, off =>
    match getBlock s off with
    | some b =>
      match b.next with
      | some nx => if b.used then walkFree s fuel nx else off
      | none => off
    | none => off

/-- the descending scan `for (int i = (1 << kSplitNum) - 1; i >= 0; --i)` for the
    first non-null, unused list head. -/
def findFreeDesc (s : TLSFState) (n fli : Nat) : Option (Nat × Nat × Block) :=
  ((List.range (1 <<< n)).reverse.filterMap (fun i =>
    match baGet s (baIdx n fli i) with
    | some off =>
      match getBlock s off with
      | some b => if b.used then none else some (i, off, b)
      | none => none
    | none => none)).head?

/-- `TLSFAllocator::allocate(size)`.  The returned value is the payload offset
    `block + sizeof(BoundaryBlock)`; `none` is the null return. -/
def allocate (n : Nat) (s0 : TLSFState) (sizeReq : Nat) : Option Nat × TLSFState :=
  let size := if sizeReq < (1 <<< n) then (1 <<< n) else sizeReq
  if s0.maxSize < size then (none, s0)
  else
    let fli := getMSB size
    let sli := getSecondLevel size fli n
    -- the final `if (!target || target->header.used)` check and used-marking
    let finish := fun (s : TLSFState) (sli' : Nat) =>
      match baGet s (baIdx n fli sli') with
      | none => (none, s)
      | some t =>
        match getBlock s t with
        | none => (none, s)  -- dangling head pointer; unreachable here
        | some b =>
          if b.used then (none, s)
          else (some (t + hdrSize), setBlock s t { b with used := true })
    let target0 := baGet s0 (baIdx n fli sli)
    let headerFree :=
      match (target0.map (walkFree s0 64)).bind (getBlock s0) with
      | some b => !b.used
      | none => false
    if target0.isSome ∧ headerFree = true then finish s0 sli
    else
      -- rebuild the second-level occupancy bitmap for this first-level row
      let freeListBit := (List.range (1 <<< n)).foldl (fun acc i =>
        match baGet s0 (baIdx n fli i) with
        | some h0 =>
          match getBlock s0 (walkFree s0 64 h0) with
          | some hb => if hb.used then acc else acc ||| (1 <<< i)
          | none => acc
        | none => acc) 0
      match getFreeListSLI sli freeListBit with
      | some newSLI => finish s0 newSLI
      | none =>
        match getFreeListFLI fli s0.allFLI with
        | none => (none, s0)  -- assert(!"failed to allocate!")
        | some newFLI =>
          match findFreeDesc s0 n newFLI with
          | none => finish s0 sli  -- scan finds nothing; target re-read unchanged
          | some (i, bOff, b) =>
            if b.size < size + endTagSize + hdrSize then (none, s0)  -- !enableSplit
            else
              let s := baSet (unregisterFLI s0 b.size) (baIdx n newFLI i) none
              match split s bOff size with
              | (s, some splitOff) =>
                let s := baSet s (baIdx n fli sli) (some bOff)
                let splitSize := ((getBlock s splitOff).map (·.size)).getD 0
                -- `if (!mBlockArray[(newFLI - kSplitNum) * (1 << kSplitNum) + i])`:
                -- that index is getBlockArrayIndex(newFLI, i), nulled just above,
                -- so the then-branch is always taken; the else-branch dereferences
                -- the nulled slot and is dead code, modelled as a no-op.
                let s :=
                  if baGet s (baIdx n newFLI i) = none then
                    modifyBlock (baSet s (sizeIdx n splitSize) (some splitOff)) splitOff
                      (fun sb => { sb with used := false })
                  else s
                finish (registerFLI s splitSize) sli
              | (s, none) => (none, s)  -- unreachable: enableSplit was checked

/-- `TLSFAllocator::deallocate(address)`. -/
def deallocate (n : Nat) (s0 : TLSFState) (addr : Nat) : Bool × TLSFState :=
  if addr < hdrSize then (false, s0)  -- null-pointer guard
  else
    let off := addr - hdrSize
    match getBlock s0 off with
    | none => (true, s0)  -- freeing a pointer the allocator never produced
    | some b0 =>
      let b := { b0 with used := false }
      let s := removeBlockFromList n (setBlock s0 off b) off none
      -- neighbour inspection happens before any merge, from the original block
      let rOff := off + blockSize b
      let isRightFree : Bool :=
        decide (rOff ≤ s.allSize) &&
        (match getBlock s rOff with
          -- an in-range offset holding no live header is a garbage read: not free
          | some rb => !rb.used && decide (rb.size ≠ 0)
          | none => false)
      -- prev(): the tag 4 bytes below this header; for the block at offset 0 the
      -- read is below the arena (out of bounds), modelled as an absent tag, which
      -- matches the `left >= mMemory` range check rejecting the garbage neighbour
      let lOff : Option Nat :=
        if off < endTagSize then none
        else (alGet s.tags (off - endTagSize)).bind
          (fun t => if t ≤ off then some (off - t) else none)
      let isLeftFree : Bool :=
        match lOff with
        | some lo =>
          decide (lo ≤ s.allSize) &&
          (match getBlock s lo with
            | some lb => !lb.used && decide (lb.size ≠ 0)
            | none => false)
        | none => false
      let s := if isRightFree then merge (removeBlockFromList n s rOff none) off else s
      let (s, off2) :=
        if isLeftFree then
          let lo := lOff.getD 0
          (merge (removeBlockFromList n s lo (some off)) lo, lo)
        else (s, off)
      let bsize := ((getBlock s off2).map (·.size)).getD 0
      let s :=
        match baGet s (sizeIdx n bsize) with
        | none => baSet s (sizeIdx n bsize) (some off2)
        | some h =>
          modifyBlock (modifyBlock s h (fun hb => { hb with next := some off2 })) off2
            (fun bb => { bb with pre := some h, next := none })
      (true, registerFLI s bsize)

/-- constructor (`mMaxSize = byteSize - sizeof(TLSFBlockHeader) - sizeof(uint32)`)
    followed by `clearAll()`: one free block spanning the arena, registered at
    `(getMSB(mMaxSize), 0)`. -/
def init (n byteSize : Nat) : TLSFState :=
  let maxSize := byteSize - hdrSize - endTagSize
  let s : TLSFState :=
    { blocks := [], tags := [], blockArray := [], allFLI := 0
      maxSize := maxSize, allSize := byteSize }
  let s := writeEndTag (setBlock s 0 { size := maxSize, used := false, pre := none, next := none }) 0
  let s := baSet s (baIdx n (getMSB maxSize) 0) (some 0)
  { s with allFLI := 1 <<< getMSB maxSize }

/-- the spec's coalesce scenario: 1 MiB arena, split count 4; two 256-byte
    allocations, both freed, then one 512-byte allocation. -/
def scenario : Option Nat × TLSFState :=
  let s0 := init 4 (1024 * 1024)
  let (p1, s1) := allocate 4 s0 256
  let (p2, s2) := allocate 4 s1 256
  let (_, s3) := deallocate 4 s2 (p1.getD 0)
  let (_, s4) := deallocate 4 s3 (p2.getD 0)
  allocate 4 s4 512

end TLSF

/-! ### JobSystem.hpp: `ThreadPool` / `Job` (the draft with `addChild` and
    `worker`, lines 438-689)

    A job carries a callable `f`, an intrusive `pNext`, an atomic
    `dependencyCount` and a child list; `addChild` increments the child's count
    once per edge.  A worker pops the ready-list head under the mutex, runs the
    callable to completion, then decrements each child's count and pushes a child
    whose count it brought to zero (`fetch_sub(1) == 1`).

    The pool is modelled as a small-step transition system over an interleaving
    of those three mutually atomic actions (each is protected in the source by
    the mutex or by the atomicity of `fetch_sub`): popping the head job, the
    callable returning, and one child notification.  Any number of workers is
    covered, because any interleaving of the atomic actions is a path of the
    relation.  Jobs are identified by numbers; the static dependency graph maps
    each job to its child list (`addChild` edges, with multiplicity). -/

namespace JS

/-- the dependency DAG built with `createJob` / `addChild`: the job identifiers
    and, for each job, its child list (one entry per `addChild` call). -/
structure Graph where
  jobs : List Nat
  children : Nat → List Nat

/-- number of `addChild` edges into `c`, i.e. the value `dependencyCount`
    reaches before any parent completes. -/
def parentEdges (g : Graph) (c : Nat) : Nat :=
  (g.jobs.map (fun j => (g.children j).count c)).sum

/-- scheduling phases of a job: 0 = not yet in the ready list, 1 = in the ready
    list, 2 = callable running, 3 = callable returned. -/
structure PState where
  ready : List Nat
  phase : Nat → Nat
  dep : Nat → Nat
  notif : Nat → Nat

/-- pointwise function update. -/
def upd (f : Nat → Nat) (k v : Nat) : Nat → Nat :=
  fun i => if i = k then v else f i

/-- one atomic action of the pool. -/
inductive Step (g : Graph) : PState → PState → Prop
  /-- a worker pops the ready-list head (`pJob = mpJobHead; mpJobHead = pJob->pNext`)
      and enters `pJob->f()`. -/
  | take (s : PState) (j : Nat) (rest : List Nat) (hready : s.ready = j :: rest) :
      Step g s ⟨rest, upd s.phase j 2, s.dep, s.notif⟩
  /-- the callable returns. -/
  | finish (s : PState) (j : Nat) (hphase : s.phase j = 2) :
      Step g s ⟨s.ready, upd s.phase j 3, s.dep, s.notif⟩
  /-- the worker that completed `j` notifies `j`'s next unprocessed child `c`:
      `if (pChild->dependencyCount.fetch_sub(1) == 1) { push; notify }`. -/
  | notifyChild (s : PState) (j c : Nat) (hphase : s.phase j = 3)
      (hidx : s.notif j < (g.children j).length)
      (hc : (g.children j).getD (s.notif j) 0 = c) :
      Step g s
        (if s.dep c = 1 then
          ⟨c :: s.ready, upd s.phase c 1, upd s.dep c 0, upd s.notif j (s.notif j + 1)⟩
        else
          ⟨s.ready, s.phase, upd s.dep c (s.dep c - 1), upd s.notif j (s.notif j + 1)⟩)

/-- the state right after building the DAG and submitting the root jobs:
    submitted (dependency-free) jobs sit in the ready list (each once), every
    job's dependency count equals its number of parent edges, and no
    notifications have fired. -/
def Initial (g : Graph) (s : PState) : Prop :=
  (∀ j, s.phase j = if j ∈ s.ready then 1 else 0) ∧
  (∀ j ∈ s.ready, j ∈ g.jobs ∧ parentEdges g j = 0) ∧
  (∀ c, s.dep c = parentEdges g c) ∧
  (∀ j, s.notif j = 0) ∧
  s.ready.Nodup

/-- edges into `c` already processed by completed parents, as a function of the
    per-parent notification counters. -/
def processed (g : Graph) (notif : Nat → Nat) (c : Nat) : Nat :=
  (g.jobs.map (fun j => ((g.children j).take (notif j)).count c)).sum

/-- the inductive invariant tying dependency counts to processed edges. -/
def Inv (g : Graph) (s : PState) : Prop :=
  (∀ j, 0 < s.notif j → s.phase j = 3) ∧
  (∀ j, s.notif j ≤ (g.children j).length) ∧
  (∀ c, s.dep c + processed g s.notif c = parentEdges g c) ∧
  (∀ c, 1 ≤ s.phase c → s.dep c = 0) ∧
  (∀ c ∈ s.ready, s.phase c = 1) ∧
  (∀ j, s.phase j ≠ 0 → j ∈ g.jobs) ∧
  s.ready.Nodup

theorem upd_self (f : Nat → Nat) (k v : Nat) : upd f k v k = v := by
  simp [upd]

theorem upd_ne (f : Nat → Nat) (k v i : Nat) (h : i ≠ k) : upd f k v i = f i := by
  simp [upd, h]

end JS

/-! ## Concrete scenario states used by the theorems -/

/-- C1 failing input: two entities; entity 1 receives component 1 first, then
    entity 0 receives component 0 (the adds arrive in shuffled order). -/
def c1Pool : Pool Nat := (Pool.empty.emplace 1 1).emplace 0 0

/-- C3 failing input: five entities 0..4 all own an `int` component; entities
    0, 2, 4 also own a `double` component; then `registry.group<int, double>()`
    runs the group constructor. -/
def c3Int : Pool Nat :=
  ((((Pool.empty.emplace 0 10).emplace 1 11).emplace 2 12).emplace 3 13).emplace 4 14

def c3Dbl : Pool Nat := ((Pool.empty.emplace 0 20).emplace 2 22).emplace 4 24

/-- C5 failing input, step by step.  `e0 = 0` is created and destroyed; the
    recycled handle is `spinEntitySlot 0 = 2^32`. -/
def c5E0' : Nat := spinEntitySlot 0

/-- the `int` pool after `add<int>(e0', 100); add<int>(t, 101)` with `t = 1`
    the second created entity. -/
def c5Int : Pool Nat := (Pool.empty.emplace c5E0' 100).emplace 1 101

/-- the `double` pool after `add<double>(t, 200)` emplaces (before the group
    notification fires). -/
def c5Dbl : Pool Nat := Pool.empty.emplace 1 200

/-- `Registry::add<double>(t)` then notifies the group over `{int, double}`
    (created while the `double` pool was still empty, so `group_size = 0`):
    `Group::checkAddedImpl(t)` swaps `t` into position 0 of each pool. -/
def c5After : (Pool Nat × Pool Nat) × Nat := Group2.checkAdded (c5Int, c5Dbl) 0 1

/-- C2 counterexample pools.  Pool `A` holds entity `(gen 1, idx 0)` (obtained by
    destroying `(0,0)` and recycling).  Pool `B` held `(0,0)`, lost it to the
    destroy, and then received a component again under the stale handle `(0,0)`
    (allowed: `emplace` only requires the entity not to be present). -/
def c2A : Pool Nat := Pool.empty.emplace (mkEntity 1 0) 5

def c2B : Pool Nat := ((Pool.empty.emplace 0 7).removeE 0).emplace 0 8

/-- C7 counterexample: arena of 100 bytes, block size 256; two 80-byte
    allocations force a second block; reset; one more 80-byte allocation. -/
def c7S1 : Arena.ArenaState := (Arena.allocate 256 (Arena.init 100) 80).2

def c7S2 : Arena.ArenaState := (Arena.allocate 256 c7S1 80).2

/-! ## Helper lemmas -/

theorem foldl_id_of_fix {f : α → β → α} {l : List β} {a : α}
    (h : ∀ x ∈ l, f a x = a) : l.foldl f a = a := by
  induction l with
  | nil => rfl
  | cons x xs ih =>
    simp only [List.foldl_cons, h x (List.mem_cons_self x xs)]
    exact ih fun y hy => h y (List.mem_cons_of_mem x hy)

/-- a pool whose sparse entries point back at their dense positions
    (the direction of the invariant that matters for `sortFix`). -/
def Pool.SparseAligned (p : Pool α) : Prop :=
  ∀ i, i < p.dense.length → p.sparse.getD (entityIndex (p.dense.getD i 0)) 0 = i

theorem Pool.sortFixWhile_eq_of_aligned (p : Pool α) (pos fuel : Nat)
    (h : p.sparse.getD (entityIndex (p.dense.getD pos 0)) 0 = pos) :
    p.sortFixWhile pos (fuel + 1) = p := by
  simp only [Pool.sortFixWhile]
  rw [h]
  simp

/-- the fix-up loop of `SparseSet::sort` never changes the pool: at every
    position the loop guard `curr != next` is already false, because the sparse
    entry of the dense entity at `pos` is `pos` itself. -/
theorem Pool.sortFix_eq_of_aligned (p : Pool α) (h : p.SparseAligned) :
    p.sortFix = p := by
  unfold Pool.sortFix
  exact foldl_id_of_fix fun pos hpos =>
    Pool.sortFixWhile_eq_of_aligned p pos p.dense.length
      (h pos (List.mem_range.mp hpos))

/-- on a pool satisfying the sparse-set invariant, `SparseSet::sort` only sorts
    the packed vector; dense and sparse are left exactly as they were. -/
theorem Pool.sortSS_eq_of_aligned (le : α → α → Bool) (p : Pool α)
    (h : p.SparseAligned) :
    Pool.sortSS le p = { p with packed := Pool.insertionSort le p.packed } := by
  unfold Pool.sortSS
  exact Pool.sortFix_eq_of_aligned _ h

/-! ## Claim theorems -/

/-- C1: after creating entities and adding `int` components in shuffled order,
    `sort<int>(<)` is claimed to reorder the dense arrays with the sparse array
    updated to match, so that each handle still resolves to its own component
    and `get<int>` returns the value that was added for that entity.  The code
    violates this: on the failing input (entity 1 gets component 1, then entity
    0 gets component 0), sorting yields a sorted packed array, but the dense and
    sparse arrays are unchanged (the fix-up loop never runs), so `get` on entity
    0 now returns entity 1's component 1 instead of its own component 0. -/
theorem sort_breaks_handle_resolution :
    c1Pool.getComp 0 = 0 ∧ c1Pool.getComp 1 = 1 ∧
    (Pool.sortSS (fun a b => decide (a < b)) c1Pool).packed = [0, 1] ∧
    (Pool.sortSS (fun a b => decide (a < b)) c1Pool).dense = c1Pool.dense ∧
    (Pool.sortSS (fun a b => decide (a < b)) c1Pool).sparse = c1Pool.sparse ∧
    (Pool.sortSS (fun a b => decide (a < b)) c1Pool).getComp 0 = 1 := by
  decide

/-- C3: a group over `{int, double}` is claimed to keep, at every position below
    `group_size`, the same entity in every involved pool's dense array, with the
    prefix equal to the intersection.  On the failing input (ints on entities
    0..4, doubles on 0, 2, 4) the group constructor itself produces
    `group_size = 3` with the int pool's dense prefix `[0, 4, 1]` against the
    double pool's `[0, 2, 4]`: position 1 holds entity 4 in one pool and entity
    2 in the other, because `SparseSet::swap` never updates the displaced
    entity's sparse entry. -/
theorem group_prefix_desynchronised :
    (Group2.construct (c3Int, c3Dbl)).2 = 3 ∧
    (Group2.construct (c3Int, c3Dbl)).1.1.dense = [0, 4, 1, 3, 2] ∧
    (Group2.construct (c3Int, c3Dbl)).1.2.dense = [0, 2, 4] ∧
    (Group2.construct (c3Int, c3Dbl)).1.1.dense.getD 1 0 ≠
      (Group2.construct (c3Int, c3Dbl)).1.2.dense.getD 1 0 := by
  decide

/-- C4: `Registry::create` pops the freed queue's front with the generation
    field bumped by one and the index unchanged (so the recycled handle differs
    from every prior handle at that index), and mints `(generation 0,
    index next_index++)` when the queue is empty.  Proved as stated, under the
    side conditions that the bumped generation and the fresh index do not
    overflow their 32-bit fields. -/
theorem registry_create_recycles_with_bump (r : Reg Nat) :
    (∀ e rest, r.freed = e :: rest →
      r.create.1 = spinEntitySlot e ∧
      r.create.2.freed = rest ∧
      entityIndex (spinEntitySlot e) = entityIndex e ∧
      (entitySlot e + 1 < 2 ^ 32 →
        entitySlot (spinEntitySlot e) = entitySlot e + 1 ∧
        ∀ g, g ≤ entitySlot e → spinEntitySlot e ≠ mkEntity g (entityIndex e))) ∧
    (r.freed = [] →
      r.create.1 = r.nextEntity ∧
      r.create.2.nextEntity = (r.nextEntity + 1) % 2 ^ 64 ∧
      (r.nextEntity < 2 ^ 32 →
        entitySlot r.create.1 = 0 ∧ entityIndex r.create.1 = r.nextEntity)) := by
  constructor
  · intro e rest hfreed
    have hc : r.create = (spinEntitySlot e, { r with freed := rest }) := by
      simp [Reg.create, hfreed]
    rw [hc]
    refine ⟨rfl, rfl, ?_, ?_⟩
    · unfold spinEntitySlot entityIndex
      omega
    · intro hlt
      have hidx : entityIndex e < 2 ^ 32 := Nat.mod_lt _ (by norm_num)
      unfold spinEntitySlot entitySlot entityIndex mkEntity at *
      constructor
      · omega
      · intro g hg
        omega
  · intro hfreed
    have hc : r.create = (r.nextEntity, { r with nextEntity := (r.nextEntity + 1) % 2 ^ 64 }) := by
      simp [Reg.create, hfreed]
    rw [hc]
    refine ⟨rfl, rfl, fun hlt => ?_⟩
    unfold entitySlot entityIndex
    omega

/-- C4 witness: a registry whose freed queue fronts `(gen 1, idx 3)` recycles it
    as `(gen 2, idx 3)`, distinct from both earlier handles at index 3; a
    registry with an empty queue mints index `next_index` at generation 0. -/
theorem registry_create_recycles_with_bump_witness :
    (Reg.create (⟨5, [mkEntity 1 3], []⟩ : Reg Nat)).1 = spinEntitySlot (mkEntity 1 3) ∧
    entitySlot (spinEntitySlot (mkEntity 1 3)) = 2 ∧
    spinEntitySlot (mkEntity 1 3) ≠ mkEntity 1 3 ∧
    (Reg.create (⟨5, [], []⟩ : Reg Nat)).1 = 5 := by
  have h := registry_create_recycles_with_bump (⟨5, [mkEntity 1 3], []⟩ : Reg Nat)
  have h1 := h.1 (mkEntity 1 3) [] rfl
  have h2 := (registry_create_recycles_with_bump (⟨5, [], []⟩ : Reg Nat)).2 rfl
  refine ⟨h1.1, ?_, ?_, h2.1⟩
  · have := (h1.2.2.2 (by decide)).1
    simpa [entitySlot, mkEntity] using this
  · have := (h1.2.2.2 (by decide)).2 1 (by decide)
    simpa using this

/-- C6: over a 1 MiB buffer with split count 4, allocating 256 bytes twice,
    freeing both, and allocating 512 bytes succeeds: the second deallocate
    coalesces the freed block with both its free right neighbour and its free
    left neighbour, restoring the single full-arena free block (1048540 usable
    bytes), from which the 512-byte allocation is carved.  The two payload
    pointers sit at offsets 32 and 324, and the final allocation returns
    offset 32 (non-null). -/
theorem tlsf_coalesce_scenario_succeeds :
    (TLSF.allocate 4 (TLSF.init 4 (1024 * 1024)) 256).1 = some 32 ∧
    (TLSF.allocate 4 (TLSF.allocate 4 (TLSF.init 4 (1024 * 1024)) 256).2 256).1 = some 324 ∧
    TLSF.getBlock
      (TLSF.deallocate 4
        (TLSF.deallocate 4 (TLSF.allocate 4 (TLSF.allocate 4 (TLSF.init 4 (1024 * 1024)) 256).2 256).2 32).2
        324).2 0 =
      some { size := 1048540, used := false, pre := none, next := none } ∧
    TLSF.scenario.1 = some 32 := by
  refine ⟨?_, ?_, ?_, ?_⟩ <;> rfl

/-- C7 counterexample: for the arena constructed over 100 bytes (block size
    256), the first `allocate(80)` returns the base of the initial buffer
    (block 0, offset 0); after a second `allocate(80)` chains a fresh block and
    `reset()` rewinds the cursors, the next `allocate(80)` returns the base of
    the *new* block (block 1, offset 0), not the pointer the first allocation
    returned — refuting the claim for arenas whose chain has grown. -/
theorem arena_reset_address_not_reused :
    (Arena.allocate 256 (Arena.init 100) 80).1 = some (0, 0) ∧
    (Arena.allocate 256 (Arena.reset c7S2) 80).1 = some (1, 0) ∧
    (some ((1 : Nat), (0 : Nat)) ≠ some ((0 : Nat), (0 : Nat))) := by
  decide

/-- C7 (amended): when the arena still consists of the single block it was
    constructed with (no allocation has forced a second block), `reset()`
    followed by `allocate(n)` returns the same pointer as the first
    `allocate(n)` after construction. -/
theorem arena_reset_address_reused_single_block (sz c n kB : Nat)
    (s : Arena.ArenaState) (hs : s.blocks = [⟨0, sz, c⟩]) (hn : n ≤ sz) :
    (Arena.allocate kB (Arena.reset s) n).1 = (Arena.allocate kB (Arena.init sz) n).1 := by
  simp [Arena.allocate, Arena.reset, Arena.init, hs, Nat.not_lt.2 hn]

/-- C7 witness: the amended property at the concrete single-block arena of 100
    bytes with the cursor at 80. -/
theorem arena_reset_address_reused_single_block_witness :
    (Arena.allocate 256 (Arena.reset ⟨[⟨0, 100, 80⟩], 1⟩) 80).1 =
      (Arena.allocate 256 (Arena.init 100) 80).1 :=
  arena_reset_address_reused_single_block 100 80 80 256 ⟨[⟨0, 100, 80⟩], 1⟩ rfl
    (by decide)

/-- C9: `Registry::destroy` performs no liveness check: destroying the same
    handle twice (with no create in between) enqueues it twice, and the next two
    `create()` calls pop the two copies and bump each once, returning the same
    64-bit handle twice — two live entities with identical handles. -/
theorem registry_double_destroy_duplicates_handles (r : Reg Nat) (e : Nat)
    (hfree : r.freed = []) :
    ((r.destroy e).destroy e).freed = [e, e] ∧
    ((r.destroy e).destroy e).create.1 = spinEntitySlot e ∧
    (((r.destroy e).destroy e).create).2.create.1 = spinEntitySlot e := by
  simp [Reg.destroy, Reg.create, hfree]

/-- C9 witness: the double destroy at a concrete registry and handle. -/
theorem registry_double_destroy_duplicates_handles_witness :
    ((Reg.destroy (Reg.destroy (⟨3, [], []⟩ : Reg Nat) 7) 7).create).1 = spinEntitySlot 7 ∧
    ((Reg.destroy (Reg.destroy (⟨3, [], []⟩ : Reg Nat) 7) 7).create).2.create.1 =
      spinEntitySlot 7 := by
  have h := registry_double_destroy_duplicates_handles (⟨3, [], []⟩ : Reg Nat) 7 rfl
  exact ⟨h.2.1, h.2.2⟩

/-- C10: when no pool exists for a component type's hash, `size<T>` returns 0,
    `contains<T>` returns false for every entity, and `remove<T>` and `each<T>`
    return early — invoking nothing and leaving the registry completely
    unchanged (none of the four creates the pool). -/
theorem registry_missing_pool_is_inert (r : Reg Nat) (h e : Nat)
    (hm : r.findPool h = none) :
    r.sizeR h = 0 ∧
    r.containsR h e = false ∧
    r.removeR h e = r ∧
    r.eachVisitsR h = [] := by
  refine ⟨?_, ?_, ?_, ?_⟩ <;> simp [Reg.sizeR, Reg.containsR, Reg.removeR, Reg.eachVisitsR, hm]

/-- C5: a destroyed entity is claimed to satisfy `contains<T>(E) = false` for
    every later call.  The code violates this with no stale `add` of `E` itself:
    `e0 = 0` is created and destroyed (`create`/`destroy` shown below); the
    recycled handle `e0' = spinEntitySlot 0` and a second entity `t = 1` receive
    `int` components; a group over `{int, double}` is created while the `double`
    pool is empty; then `add<double>(t)` fires `Group::checkAddedImpl(t)`, whose
    `SparseSet::swap(t, e0')` leaves `sparse[0]` pointing at the dense slot now
    holding `t` — and since `ISparseSet::contains` compares only the generation
    slot (both `e0` and `t` have generation 0), `contains<int>(e0)` returns true
    for the destroyed handle. -/
theorem destroyed_entity_contains_becomes_true :
    (Reg.create (Reg.emptyReg : Reg Nat)).1 = 0 ∧
    (Reg.create (Reg.destroy (Reg.create (Reg.emptyReg : Reg Nat)).2 0)).1 = c5E0' ∧
    (Reg.create (Reg.create (Reg.destroy (Reg.create (Reg.emptyReg : Reg Nat)).2 0)).2).1 = 1 ∧
    c5Int.containsE 0 = false ∧
    c5After.2 = 1 ∧
    (c5After.1.1).containsE 0 = true := by
  decide

/-- C2 counterexample: the view over inclusion pools `{A, B}` (no exclusions)
    visits entity `(gen 1, idx 0)` exactly once even though pool `B` does not
    contain it generation-included (`B` holds the stale `(gen 0, idx 0)`), so
    `fn` is invoked for an entity outside the generation-inclusive intersection,
    refuting "invokes fn for no other entity". -/
theorem view_visits_entity_outside_intersection :
    View.visited [c2A, c2B] [] = [mkEntity 1 0] ∧
    c2B.containsE (mkEntity 1 0) = false := by
  decide

/-- C10 witness: the four operations on a fresh registry with no pools. -/
theorem registry_missing_pool_is_inert_witness :
    (Reg.emptyReg : Reg Nat).sizeR 0 = 0 ∧
    (Reg.emptyReg : Reg Nat).containsR 0 5 = false ∧
    (Reg.emptyReg : Reg Nat).removeR 0 5 = Reg.emptyReg ∧
    (Reg.emptyReg : Reg Nat).eachVisitsR 0 = [] :=
  registry_missing_pool_is_inert Reg.emptyReg 0 5 rfl

/-! ## Well-formedness consequences used for the view theorem -/

theorem mkEntity_decomp (e : Nat) : mkEntity (entitySlot e) (entityIndex e) = e := by
  unfold mkEntity entitySlot entityIndex
  omega

/-- two entity values with equal generation slots and equal indices are equal. -/
theorem entity_eq_of_slot_index (a b : Nat) (hs : entitySlot a = entitySlot b)
    (hi : entityIndex a = entityIndex b) : a = b := by
  unfold entitySlot entityIndex at *
  omega

theorem Pool.containsE_eq_true_iff (p : Pool α) (e : Nat) :
    p.containsE e = true ↔
      entityIndex e < p.sparse.length ∧
      p.sparse.getD (entityIndex e) 0 ≠ kTombstone ∧
      entitySlot (p.dense.getD (p.sparse.getD (entityIndex e) 0) 0) = entitySlot e := by
  unfold Pool.containsE
  by_cases h : entityIndex e < p.sparse.length <;> simp [h]

theorem Pool.getSparseIndexIfValid_isSome_iff (p : Pool α) (e : Nat) :
    (p.getSparseIndexIfValid e).isSome = true ↔
      entityIndex e < p.sparse.length ∧
      p.sparse.getD (entityIndex e) 0 < p.packed.length := by
  unfold Pool.getSparseIndexIfValid
  by_cases h1 : entityIndex e < p.sparse.length
  · by_cases h2 : p.sparse.getD (entityIndex e) 0 < p.packed.length <;> simp [h1, h2]
  · simp [h1]

/-- on a well-formed pool, containment locates the entity in the dense array at
    its sparse position. -/
theorem Pool.containsE_locates (p : Pool α) (hwf : p.WF) (e : Nat)
    (hc : p.containsE e = true) :
    p.sparse.getD (entityIndex e) 0 < p.dense.length ∧
    p.dense.getD (p.sparse.getD (entityIndex e) 0) 0 = e := by
  obtain ⟨hidx, hst, hslot⟩ := (Pool.containsE_eq_true_iff p e).mp hc
  obtain ⟨hlen, hsd, hds⟩ := hwf
  obtain ⟨hlt, hback⟩ := hds (entityIndex e) hidx hst
  exact ⟨hlt, entity_eq_of_slot_index _ _ hslot hback⟩

theorem Pool.containsE_mem_dense (p : Pool α) (hwf : p.WF) (e : Nat)
    (hc : p.containsE e = true) : e ∈ p.dense := by
  obtain ⟨hlt, heq⟩ := Pool.containsE_locates p hwf e hc
  rw [← heq, List.getD_eq_get _ _ hlt]
  exact List.get_mem _ _ _

/-- on a well-formed pool, containment implies the generation-blind validity test
    of `getSparseIndexIfValid` succeeds. -/
theorem Pool.valid_of_containsE (p : Pool α) (hwf : p.WF) (e : Nat)
    (hc : p.containsE e = true) : (p.getSparseIndexIfValid e).isSome = true := by
  obtain ⟨hidx, hst, _⟩ := (Pool.containsE_eq_true_iff p e).mp hc
  obtain ⟨hlen, hsd, hds⟩ := hwf
  obtain ⟨hlt, _⟩ := hds (entityIndex e) hidx hst
  exact (Pool.getSparseIndexIfValid_isSome_iff p e).mpr ⟨hidx, hlen ▸ hlt⟩

/-- the dense array of a well-formed pool has no duplicates: the sparse map
    sends each dense entry back to its own position. -/
theorem Pool.wf_dense_nodup (p : Pool α) (hwf : p.WF) : p.dense.Nodup := by
  obtain ⟨hlen, hsd, hds⟩ := hwf
  rw [List.nodup_iff_injective_get]
  intro i j hij
  have hi := (hsd i.1 i.2).2
  have hj := (hsd j.1 j.2).2
  rw [List.getD_eq_get _ _ i.2] at hi
  rw [List.getD_eq_get _ _ j.2] at hj
  apply Fin.ext
  rw [← hi, ← hj, hij]

theorem View.pivotIdx_lt (incl : List (Pool α)) (h : incl ≠ []) :
    View.pivotIdx incl < incl.length := by
  unfold View.pivotIdx
  have key : ∀ (l : List (Nat × Pool α)) (b : Nat × Nat), b.2 < incl.length →
      (∀ q ∈ l, q.1 < incl.length) →
      (l.foldl (fun best q => if best.1 ≤ q.2.sizeE then best else (q.2.sizeE, q.1)) b).2 <
        incl.length := by
    intro l
    induction l with
    | nil => intro b hb _; exact hb
    | cons x xs ih =>
      intro b hb hl
      simp only [List.foldl_cons]
      by_cases hc : b.1 ≤ x.2.sizeE
      · rw [if_pos hc]
        exact ih b hb fun q hq => hl q (List.mem_cons_of_mem _ hq)
      · rw [if_neg hc]
        exact ih _ (hl x (List.mem_cons_self _ _)) fun q hq => hl q (List.mem_cons_of_mem _ hq)
  apply key
  · exact List.length_pos.mpr h
  · intro q hq
    have hq' : q ∈ List.enumFrom 0 incl := hq
    obtain ⟨-, hlt, -⟩ := List.mem_enumFrom hq'
    omega

/-- C2 (amended): `view.each` invokes `fn` exactly once for each entity that is
    contained — generation included — in every inclusion pool and in no
    exclusion pool; every invoked entity comes from the pivot pool's dense
    array, passes the generation-blind `getSparseIndexIfValid` test on every
    inclusion pool, and is contained in no exclusion pool.  (The membership test
    on inclusion pools ignores generations, so an entity whose index carries a
    different generation in a non-pivot inclusion pool may additionally be
    visited, as the counterexample shows.) -/
theorem view_each_visits_exactly_once (incl excl : List (Pool α)) (e : Nat)
    (hne : incl ≠ [])
    (hwf : ∀ p ∈ incl, p.WF)
    (hin : ∀ p ∈ incl, p.containsE e = true)
    (hex : ∀ q ∈ excl, q.containsE e = false) :
    (View.visited incl excl).count e = 1 ∧
    (∀ e', e' ∈ View.visited incl excl →
      e' ∈ (incl.getD (View.pivotIdx incl) Pool.empty).dense ∧
      (∀ p ∈ incl, (p.getSparseIndexIfValid e').isSome = true) ∧
      (∀ q ∈ excl, q.containsE e' = false)) := by
  have hpl : View.pivotIdx incl < incl.length := View.pivotIdx_lt incl hne
  have hpm : incl.getD (View.pivotIdx incl) Pool.empty ∈ incl := by
    rw [List.getD_eq_get _ _ hpl]
    exact List.get_mem _ _ _
  have hwfp := hwf _ hpm
  have hpred : (incl.all (fun p => (p.getSparseIndexIfValid e).isSome) &&
      excl.all (fun p => !(p.containsE e))) = true := by
    simp only [Bool.and_eq_true, List.all_eq_true]
    constructor
    · intro p hp
      exact Pool.valid_of_containsE p (hwf p hp) e (hin p hp)
    · intro q hq
      simp [hex q hq]
  constructor
  · exact List.count_eq_one_of_mem ((Pool.wf_dense_nodup _ hwfp).filter _)
      (List.mem_filter.mpr ⟨Pool.containsE_mem_dense _ hwfp e (hin _ hpm), hpred⟩)
  · intro e' he'
    unfold View.visited at he'
    obtain ⟨hmem, hp⟩ := List.mem_filter.mp he'
    simp only [Bool.and_eq_true, List.all_eq_true] at hp
    refine ⟨hmem, hp.1, fun q hq => ?_⟩
    have := hp.2 q hq
    simpa using this

/-- C2 witness: inclusion pools sharing entity 0 (with components) and an
    exclusion pool that does not contain it; the view visits entity 0 exactly
    once. -/
theorem view_each_visits_exactly_once_witness :
    (View.visited [Pool.empty.emplace 0 5, (Pool.empty.emplace 2 6).emplace 0 7]
      [Pool.empty.emplace 3 8]).count 0 = 1 :=
  (view_each_visits_exactly_once
    [Pool.empty.emplace 0 5, (Pool.empty.emplace 2 6).emplace 0 7]
    [Pool.empty.emplace 3 8] 0
    (by decide) (by decide) (by decide) (by decide)).1

/-! ## Job-system invariant proof (C8) -/

namespace JS

theorem sum_map_update (f f' : Nat → Nat) (j d : Nat) :
    ∀ l : List Nat, l.Nodup → j ∈ l → (∀ i ∈ l, i ≠ j → f' i = f i) →
      f' j = f j + d → (l.map f').sum = (l.map f).sum + d := by
  intro l
  induction l with
  | nil => intro _ hj; cases hj
  | cons x xs ih =>
    intro hnd hj hothers hjval
    simp only [List.map_cons, List.sum_cons]
    rcases List.mem_cons.mp hj with rfl | hj'
    · have hxs : xs.map f' = xs.map f := by
        apply List.map_congr_left
        intro i hi
        exact hothers i (List.mem_cons_of_mem _ hi)
          fun hij => (List.nodup_cons.mp hnd).1 (hij ▸ hi)
      rw [hjval, hxs]
      omega
    · have hx : f' x = f x :=
        hothers x (List.mem_cons_self _ _)
          fun hxj => (List.nodup_cons.mp hnd).1 (hxj ▸ hj')
      rw [hx, ih (List.nodup_cons.mp hnd).2 hj' (fun i hi => hothers i (List.mem_cons_of_mem _ hi)) hjval]
      omega

theorem sum_map_le_pointwise (f f' : Nat → Nat) :
    ∀ l : List Nat, (∀ i ∈ l, f i ≤ f' i) → (l.map f).sum ≤ (l.map f').sum := by
  intro l
  induction l with
  | nil => intro _; simp
  | cons x xs ih =>
    intro hle
    simp only [List.map_cons, List.sum_cons]
    have h1 := hle x (List.mem_cons_self _ _)
    have h2 := ih fun i hi => hle i (List.mem_cons_of_mem _ hi)
    omega

theorem eq_of_sum_map_eq (f f' : Nat → Nat) :
    ∀ l : List Nat, (∀ i ∈ l, f i ≤ f' i) → (l.map f).sum = (l.map f').sum →
      ∀ i ∈ l, f i = f' i := by
  intro l
  induction l with
  | nil => intro _ _ i hi; cases hi
  | cons x xs ih =>
    intro hle hsum i hi
    have hx : f x ≤ f' x := hle x (List.mem_cons_self _ _)
    have hxs : (xs.map f).sum ≤ (xs.map f').sum :=
      sum_map_le_pointwise f f' xs fun i hi => hle i (List.mem_cons_of_mem _ hi)
    simp only [List.map_cons, List.sum_cons] at hsum
    rcases List.mem_cons.mp hi with rfl | hi'
    · omega
    · exact ih (fun i hi => hle i (List.mem_cons_of_mem _ hi)) (by omega) i hi'

theorem count_take_le (c : Nat) (l : List Nat) (n : Nat) :
    (l.take n).count c ≤ l.count c :=
  (List.take_sublist n l).count_le c

theorem count_take_succ_self (l : List Nat) (n c : Nat) (hn : n < l.length)
    (hc : l.getD n 0 = c) :
    (l.take (n + 1)).count c = (l.take n).count c + 1 := by
  rw [List.take_succ]
  have hg : l[n]? = some c := by
    rw [List.getElem?_eq_getElem hn, List.getD_eq_getElem l 0 hn] at *
    simp [hc]
  rw [hg]
  simp

theorem count_take_add_one_le (l : List Nat) (n c : Nat) (hn : n < l.length)
    (hc : l.getD n 0 = c) :
    (l.take n).count c + 1 ≤ l.count c := by
  conv_rhs => rw [← List.take_append_drop n l]
  rw [List.count_append]
  have hd : l.drop n = c :: l.drop (n + 1) := by
    rw [List.drop_eq_getElem_cons hn, List.getD_eq_getElem l 0 hn] at *
    rw [hc]
  rw [hd]
  simp [List.count_cons]

theorem initial_inv (g : Graph) (s : PState) (h : Initial g s) : Inv g s := by
  obtain ⟨hphase, hready, hdep, hnotif, hnd⟩ := h
  refine ⟨?_, ?_, ?_, ?_, ?_, ?_, hnd⟩
  · intro j hj
    rw [hnotif j] at hj
    omega
  · intro j
    rw [hnotif j]
    exact Nat.zero_le _
  · intro c
    have hzero : processed g s.notif c = 0 := by
      unfold processed
      apply List.sum_eq_zero
      intro x hx
      obtain ⟨j, _, hj⟩ := List.mem_map.mp hx
      rw [hnotif j] at hj
      simp at hj
      omega
    rw [hzero, hdep c]
    omega
  · intro c hc
    rw [hphase c] at hc
    by_cases hm : c ∈ s.ready
    · rw [hdep c]
      exact (hready c hm).2
    · rw [if_neg hm] at hc
      omega
  · intro c hc
    rw [hphase c, if_pos hc]
  · intro j hj
    rw [hphase j] at hj
    by_cases hm : j ∈ s.ready
    · exact (hready j hm).1
    · rw [if_neg hm] at hj
      simp at hj

theorem step_inv (g : Graph) (hjnd : g.jobs.Nodup)
    (hclosed : ∀ j ∈ g.jobs, ∀ c ∈ g.children j, c ∈ g.jobs)
    (s s' : PState) (hstep : Step g s s') (hinv : Inv g s) : Inv g s' := by
  obtain ⟨i1, i2, i3, i4, i5, i6, i7⟩ := hinv
  cases hstep with
  | take j rest hready =>
    have hjr : j ∈ s.ready := by rw [hready]; exact List.mem_cons_self _ _
    have hjnotin : j ∉ rest := by
      have := hready ▸ i7
      exact (List.nodup_cons.mp this).1
    unfold Inv
    dsimp only
    refine ⟨?_, i2, i3, ?_, ?_, ?_, ?_⟩
    · intro i hi
      have hp := i1 i hi
      by_cases hij : i = j
      · rw [hij] at hp
        rw [i5 j hjr] at hp
        omega
      · simpa [upd_ne _ _ _ _ hij] using hp
    · intro c hc
      by_cases hcj : c = j
      · subst hcj
        exact i4 c (by rw [i5 c hjr])
      · rw [upd_ne _ _ _ _ hcj] at hc
        exact i4 c hc
    · intro c hc
      have hcr : c ∈ s.ready := by rw [hready]; exact List.mem_cons_of_mem _ hc
      have hcj : c ≠ j := fun hq => hjnotin (hq ▸ hc)
      rw [upd_ne _ _ _ _ hcj]
      exact i5 c hcr
    · intro i hi
      by_cases hij : i = j
      · subst hij
        exact i6 i (by rw [i5 i hjr]; omega)
      · rw [upd_ne _ _ _ _ hij] at hi
        exact i6 i hi
    · have := hready ▸ i7
      exact (List.nodup_cons.mp this).2
  | finish j hphase =>
    unfold Inv
    dsimp only
    refine ⟨?_, i2, i3, ?_, ?_, ?_, i7⟩
    · intro i hi
      by_cases hij : i = j
      · subst hij
        exact upd_self _ _ _
      · rw [upd_ne _ _ _ _ hij]
        exact i1 i hi
    · intro c hc
      by_cases hcj : c = j
      · subst hcj
        exact i4 c (by omega)
      · rw [upd_ne _ _ _ _ hcj] at hc
        exact i4 c hc
    · intro c hc
      have h1 := i5 c hc
      have hcj : c ≠ j := fun hq => by rw [hq, hphase] at h1; omega
      rw [upd_ne _ _ _ _ hcj]
      exact h1
    · intro i hi
      by_cases hij : i = j
      · subst hij
        exact i6 i (by omega)
      · rw [upd_ne _ _ _ _ hij] at hi
        exact i6 i hi
  | notifyChild j c hphase hidx hc =>
    have hjin : j ∈ g.jobs := i6 j (by omega)
    have hcin : c ∈ g.children j := by
      rw [← hc, List.getD_eq_get _ _ hidx]
      exact List.get_mem _ _ _
    have hcjobs : c ∈ g.jobs := hclosed j hjin c hcin
    -- the per-parent processed term before and after the notification
    have hprocessed : ∀ x, processed g (upd s.notif j (s.notif j + 1)) x =
        processed g s.notif x + (if x = c then 1 else 0) := by
      intro x
      unfold processed
      apply sum_map_update
      · exact hjnd
      · exact hjin
      · intro i _ hij
        simp [upd_ne _ _ _ _ hij]
      · rw [upd_self]
        by_cases hxc : x = c
        · subst hxc
          simp only [if_pos rfl]
          exact count_take_succ_self _ _ _ hidx hc
        · simp only [if_neg hxc]
          rw [List.take_succ]
          have hg : (g.children j)[s.notif j]? = some c := by
            rw [List.getElem?_eq_getElem hidx, List.getD_eq_getElem _ 0 hidx] at *
            simp [hc]
          rw [hg]
          simp [List.count_append, List.count_cons]
          omega
    -- the pending edge (j, notif j) keeps dep c at least 1
    have hdepc : 1 ≤ s.dep c := by
      have h3 := i3 c
      have hgap : processed g s.notif c + 1 ≤ parentEdges g c := by
        unfold processed parentEdges
        have := sum_map_update
          (fun i => ((g.children i).take (s.notif i)).count c)
          (fun i => if i = j then ((g.children j).take (s.notif j)).count c + 1
                    else ((g.children i).take (s.notif i)).count c)
          j 1 g.jobs hjnd hjin (by intro i _ hij; simp [hij]) (by simp)
        rw [← this]
        apply sum_map_le_pointwise
        intro i _
        by_cases hij : i = j
        · subst hij
          simp only [if_pos rfl]
          exact count_take_add_one_le _ _ _ hidx hc
        · simp only [if_neg hij]
          exact count_take_le _ _ _
      omega
    by_cases hdep1 : s.dep c = 1
    · rw [if_pos hdep1]
      have hcnotready : c ∉ s.ready := fun hm => by
        have := i4 c (by rw [i5 c hm])
        omega
      have hphc0 : ¬ 1 ≤ s.phase c := fun hp => by
        have := i4 c hp
        omega
      unfold Inv
      dsimp only
      refine ⟨?_, ?_, ?_, ?_, ?_, ?_, ?_⟩
      · intro i hi
        by_cases hij : i = j
        · subst hij
          have hjc : i ≠ c := fun hq => hphc0 (by rw [← hq, hphase]; omega)
          rw [upd_ne _ _ _ _ hjc]
          exact hphase
        · rw [upd_ne _ _ _ _ hij] at hi
          have hp := i1 i hi
          have hic : i ≠ c := fun hq => hphc0 (by rw [← hq, hp]; omega)
          rw [upd_ne _ _ _ _ hic]
          exact hp
      · intro i
        by_cases hij : i = j
        · subst hij
          rw [upd_self]
          omega
        · rw [upd_ne _ _ _ _ hij]
          exact i2 i
      · intro x
        have hpx := hprocessed x
        simp only at hpx
        rw [hpx]
        by_cases hxc : x = c
        · subst hxc
          rw [upd_self, if_pos rfl]
          have := i3 x
          omega
        · rw [upd_ne _ _ _ _ hxc, if_neg hxc]
          have := i3 x
          omega
      · intro x hx
        by_cases hxc : x = c
        · subst hxc
          rw [upd_self]
        · rw [upd_ne _ _ _ _ hxc] at hx
          rw [upd_ne _ _ _ _ hxc]
          exact i4 x hx
      · intro x hx
        rcases List.mem_cons.mp hx with rfl | hx'
        · exact upd_self _ _ _
        · have hxc : x ≠ c := fun hq => hcnotready (hq ▸ hx')
          rw [upd_ne _ _ _ _ hxc]
          exact i5 x hx'
      · intro i hi
        by_cases hic : i = c
        · subst hic
          exact hcjobs
        · rw [upd_ne _ _ _ _ hic] at hi
          exact i6 i hi
      · exact List.nodup_cons.mpr ⟨hcnotready, i7⟩
    · rw [if_neg hdep1]
      unfold Inv
      dsimp only
      refine ⟨?_, ?_, ?_, ?_, i5, i6, i7⟩
      · intro i hi
        by_cases hij : i = j
        · subst hij
          exact hphase
        · rw [upd_ne _ _ _ _ hij] at hi
          exact i1 i hi
      · intro i
        by_cases hij : i = j
        · subst hij
          rw [upd_self]
          omega
        · rw [upd_ne _ _ _ _ hij]
          exact i2 i
      · intro x
        have hpx := hprocessed x
        simp only at hpx
        rw [hpx]
        by_cases hxc : x = c
        · subst hxc
          rw [upd_self, if_pos rfl]
          have := i3 x
          omega
        · rw [upd_ne _ _ _ _ hxc, if_neg hxc]
          have := i3 x
          omega
      · intro x hx
        by_cases hxc : x = c
        · subst hxc
          have := i4 x hx
          omega
        · rw [upd_ne _ _ _ _ hxc]
          exact i4 x hx

theorem reachable_inv (g : Graph) (hjnd : g.jobs.Nodup)
    (hclosed : ∀ j ∈ g.jobs, ∀ c ∈ g.children j, c ∈ g.jobs)
    (s0 s : PState) (h0 : Initial g s0)
    (hsteps : Relation.ReflTransGen (Step g) s0 s) : Inv g s := by
  induction hsteps with
  | refl => exact initial_inv g s0 h0
  | tail _ hstep ih => exact step_inv g hjnd hclosed _ _ hstep ih

end JS

/-- C8: in the job system's dependency DAGs, a child's callable never begins
    before every parent's callable has returned: in every state reachable by
    interleaved worker steps from a valid submission state, if a child job's
    phase has reached "running" (or beyond), then each of its parents has phase
    "returned".  A child enters the ready list only when its dependency count,
    decremented once per completed parent edge, reaches zero. -/
theorem js_child_starts_after_parents (g : JS.Graph) (hjnd : g.jobs.Nodup)
    (hclosed : ∀ j ∈ g.jobs, ∀ c ∈ g.children j, c ∈ g.jobs)
    (s0 s : JS.PState) (h0 : JS.Initial g s0)
    (hsteps : Relation.ReflTransGen (JS.Step g) s0 s)
    (c j : Nat) (hj : j ∈ g.jobs) (hedge : c ∈ g.children j)
    (hrun : 2 ≤ s.phase c) : s.phase j = 3 := by
  obtain ⟨i1, i2, i3, i4, i5, i6, i7⟩ := JS.reachable_inv g hjnd hclosed s0 s h0 hsteps
  have hdep0 : s.dep c = 0 := i4 c (by omega)
  have hsum : (g.jobs.map (fun i => ((g.children i).take (s.notif i)).count c)).sum =
      (g.jobs.map (fun i => (g.children i).count c)).sum := by
    have h3 := i3 c
    unfold JS.processed JS.parentEdges at h3
    omega
  have heach := JS.eq_of_sum_map_eq _ _ g.jobs
    (fun i _ => JS.count_take_le c (g.children i) (s.notif i)) hsum j hj
  have hcount : 0 < (g.children j).count c := List.count_pos_iff_mem.mpr hedge
  have hnotif : 0 < s.notif j := by
    rcases Nat.eq_zero_or_pos (s.notif j) with hz | hpos
    · rw [hz] at heach
      simp at heach
      omega
    · exact hpos
  exact i1 j hnotif

/-! C8 witness material: jobs 0 and 1 with the single edge 0 -> 1; job 0 is
    submitted, taken, finished, notifies job 1 (dependency count 1 -> 0, push),
    and job 1 is then taken.  In the resulting state job 1 is running and the
    theorem yields that job 0 has returned. -/

def wGraph : JS.Graph := ⟨[0, 1], fun j => if j = 0 then [1] else []⟩

def wS0 : JS.PState :=
  ⟨[0], fun j => if j = 0 then 1 else 0, fun c => if c = 1 then 1 else 0, fun _ => 0⟩

def wS1 : JS.PState := ⟨[], JS.upd wS0.phase 0 2, wS0.dep, wS0.notif⟩

def wS2 : JS.PState := ⟨wS1.ready, JS.upd wS1.phase 0 3, wS1.dep, wS1.notif⟩

def wS3 : JS.PState :=
  ⟨1 :: wS2.ready, JS.upd wS2.phase 1 1, JS.upd wS2.dep 1 0,
    JS.upd wS2.notif 0 (wS2.notif 0 + 1)⟩

def wS4 : JS.PState := ⟨[], JS.upd wS3.phase 1 2, wS3.dep, wS3.notif⟩

theorem wInitial : JS.Initial wGraph wS0 := by
  refine ⟨?_, ?_, ?_, fun j => rfl, by decide⟩
  · intro j
    by_cases h : j = 0 <;> simp [wS0, h]
  · intro j hj
    have hj0 : j = 0 := by
      simpa [wS0] using hj
    subst hj0
    exact ⟨by simp [wGraph], by decide⟩
  · intro c
    by_cases h : c = 1
    · subst h; decide
    · have h1 : JS.parentEdges wGraph c = ([1].count c + 0) := by
        simp [JS.parentEdges, wGraph]
      have h2 : [1].count c = 0 := by
        simp [List.count_cons, h]
      simp [wS0, h, h1, h2]

theorem wChain : Relation.ReflTransGen (JS.Step wGraph) wS0 wS4 := by
  have h01 : JS.Step wGraph wS0 wS1 := JS.Step.take wS0 0 [] rfl
  have h12 : JS.Step wGraph wS1 wS2 := JS.Step.finish wS1 0 rfl
  have h23 : JS.Step wGraph wS2 wS3 :=
    JS.Step.notifyChild wS2 0 1 rfl (by decide) rfl
  have h34 : JS.Step wGraph wS3 wS4 := JS.Step.take wS3 1 [] rfl
  exact .tail (.tail (.tail (.tail .refl h01) h12) h23) h34

/-- C8 witness: in the concrete interleaving where job 1 (child of job 0) has
    started running, job 0's callable has returned. -/
theorem js_child_starts_after_parents_witness : wS4.phase 0 = 3 :=
  js_child_starts_after_parents wGraph (by decide) (by decide) wS0 wS4 wInitial wChain
    1 0 (by decide) (by decide) (by decide)

end EC2S
